import Mathlib

/-!
Verification development for the Inventory-Search repository.

Server side (`InventoryService.SearchInventoryAsync`, `InventoryController.Search`)
and client side (`InventorySearchApiService`: TTL/capacity cache, cache keys,
shared in-flight observables) are shallowly embedded as executable Lean
definitions, and the behavioural properties of the system are proved about
those definitions.
-/

namespace InventorySearch

/- ### String helpers modelling the .NET / JS string operations used by the code -/

/-- Model of `ToLowerInvariant` / `toLowerCase` (character-wise lowering). -/
def lowerStr (s : String) : String := ⟨s.data.map Char.toLower⟩

/-- Model of `Trim` / `trim`: drop leading and trailing whitespace. -/
def trimStr (s : String) : String :=
  ⟨((s.data.dropWhile Char.isWhitespace).reverse.dropWhile Char.isWhitespace).reverse⟩

/-- Model of `string.IsNullOrWhiteSpace` on a nullable string. -/
def isNullOrWhiteSpace (s : Option String) : Bool :=
  match s with
  | none => true
  | some t => t.data.all Char.isWhitespace

/-- Whitespace test on a non-null string (`string.IsNullOrWhiteSpace` after the
null case is settled). -/
def isWhiteSpaceStr (s : String) : Bool := s.data.all Char.isWhitespace

/-- Split a character list at every occurrence of `c` (keeping empty pieces),
modelling `String.Split(c)`. -/
def splitChar (c : Char) : List Char → List (List Char)
  | [] => [[]]
  | x :: xs =>
    match splitChar c xs with
    | [] => [[x]]
    | y :: ys => if x = c then [] :: y :: ys else (x :: y) :: ys

/-- Model of `String.Split(c, StringSplitOptions.RemoveEmptyEntries)`. -/
def splitRemoveEmpty (c : Char) (s : String) : List String :=
  ((splitChar c s.data).map (fun l => String.mk l)).filter (fun t => t != "")

/-- Whether the first list is a prefix of the second (character-wise). -/
def listPrefixOf : List Char → List Char → Bool
  | [], _ => true
  | _ :: _, [] => false
  | a :: as, b :: bs => a == b && listPrefixOf as bs

/-- Whether `needle` occurs contiguously inside `hay`, modelling `Contains`. -/
def listContains (hay needle : List Char) : Bool :=
  match hay with
  | [] => needle.isEmpty
  | _ :: t => listPrefixOf needle hay || listContains t needle

/-- `a.Contains(b)` on strings. -/
def strContains (hay needle : String) : Bool := listContains hay.data needle.data

/-- C# `int.MinValue`, the sentinel used for a missing `LeadTimeDays` when
sorting descending. -/
def intMin : Int := -2147483648

/-- C# `int.MaxValue`, the sentinel used for a missing `LeadTimeDays` when
sorting ascending. -/
def intMax : Int := 2147483647

/-- `DateTime.MinValue` in ticks, the sentinel for a missing
`LastPurchaseDate` when sorting descending. -/
def dateMinTicks : Int := 0

/-- `DateTime.MaxValue` in ticks, the sentinel for a missing
`LastPurchaseDate` when sorting ascending. -/
def dateMaxTicks : Int := 3155378975999999999

/- ### Server-side data model (InventoryServer.Models) -/

/-- `InventoryItem`: nullable reference/`Nullable` fields are `Option`;
`DateTime` is modelled by its tick count. The `Lots` collection is not
consulted by any embedded operation and is omitted. -/
structure InventoryItem where
  partNumber : Option String
  supplierSku : Option String
  description : Option String
  branch : Option String
  uom : Option String
  leadTimeDays : Option Int
  lastPurchaseDate : Option Int
  availableQty : Int
deriving DecidableEq

/-- `InventorySearchRequest` (C# field casing kept; the C# field `Sort` is
named `SortText` here because `Sort` is a Lean keyword). -/
structure InventorySearchRequest where
  Criteria : Option String
  By : Option String
  Branches : Option String
  OnlyAvailable : Bool
  Page : Int
  Size : Int
  SortText : Option String
deriving DecidableEq

/-- `SearchResult`. -/
structure SearchResult where
  Total : Int
  Items : List InventoryItem
deriving DecidableEq

/- ### Sorting (the `switch` on the sort field in `SearchInventoryAsync`)

LINQ `OrderBy`/`ThenBy` perform a stable sort by a key; this is modelled by
`List.insertionSort` (stable) with a boolean comparator.  `OrderByDescending`
by a key is the stable sort with the flipped comparator.  The two-level
`OrderBy(presence).ThenBy(value ?? sentinel)` chains are modelled by the
lexicographic comparator `presLexLe`; for the descending chains the value
comparison is flipped by negating the value, which yields exactly the same
ordering relation on `Int`. -/

/-- Lexicographic order on character lists, by code point.  This models the
JS code-unit string order and the .NET ordinal string comparison; only its
order-theoretic properties (total, transitive, antisymmetric) are used by the
proofs. -/
def listCharLe : List Char → List Char → Bool
  | [], _ => true
  | _ :: _, [] => false
  | a :: as, b :: bs =>
    if a.toNat < b.toNat then true
    else if b.toNat < a.toNat then false
    else listCharLe as bs

/-- Lexicographic order on strings. -/
def strLe (a b : String) : Bool := listCharLe a.data b.data

/-- Comparator on nullable strings: C# `Comparer<string>` sorts `null` before
any string. -/
def optStrLe (a b : Option String) : Bool :=
  match a, b with
  | none, _ => true
  | some _, none => false
  | some x, some y => strLe x y

/-- Flip a comparator (used for `OrderByDescending`). -/
def flipLe {α : Type} (le : α → α → Bool) (a b : α) : Bool := le b a

/-- Lexicographic comparator: presence rank first, then an integer key. -/
def presLexLe {α : Type} (p : α → Nat) (v : α → Int) (a b : α) : Bool :=
  decide (p a < p b) || (p a == p b && decide (v a ≤ v b))

/-- `i.LeadTimeDays.HasValue ? 0 : 1`. -/
def leadPres (i : InventoryItem) : Nat := if i.leadTimeDays.isSome then 0 else 1

/-- `i.LastPurchaseDate.HasValue ? 0 : 1`. -/
def datePres (i : InventoryItem) : Nat := if i.lastPurchaseDate.isSome then 0 else 1

/-- `OrderBy(i => i.AvailableQty)`. -/
def qtyLe (a b : InventoryItem) : Bool := decide (a.availableQty ≤ b.availableQty)

/-- `OrderBy(i => i.Description)`. -/
def descrLe (a b : InventoryItem) : Bool := optStrLe a.description b.description

/-- `OrderBy(i => i.Branch)`. -/
def branchLe (a b : InventoryItem) : Bool := optStrLe a.branch b.branch

/-- `OrderBy(i => i.Uom)`. -/
def uomLe (a b : InventoryItem) : Bool := optStrLe a.uom b.uom

/-- `OrderBy(i => i.PartNumber)` (the default `switch` branch). -/
def partLe (a b : InventoryItem) : Bool := optStrLe a.partNumber b.partNumber

/-- `OrderBy(presence).ThenBy(i.LeadTimeDays ?? int.MaxValue)`. -/
def leadLeAsc : InventoryItem → InventoryItem → Bool :=
  presLexLe leadPres (fun i => i.leadTimeDays.getD intMax)

/-- `OrderBy(presence).ThenByDescending(i.LeadTimeDays ?? int.MinValue)`
(descending by `k` is ascending by `-k`). -/
def leadLeDesc : InventoryItem → InventoryItem → Bool :=
  presLexLe leadPres (fun i => -(i.leadTimeDays.getD intMin))

/-- `OrderBy(presence).ThenBy(i.LastPurchaseDate ?? DateTime.MaxValue)`. -/
def dateLeAsc : InventoryItem → InventoryItem → Bool :=
  presLexLe datePres (fun i => i.lastPurchaseDate.getD dateMaxTicks)

/-- `OrderBy(presence).ThenByDescending(i.LastPurchaseDate ?? DateTime.MinValue)`. -/
def dateLeDesc : InventoryItem → InventoryItem → Bool :=
  presLexLe datePres (fun i => -(i.lastPurchaseDate.getD dateMinTicks))

/-- Stable sort by a boolean comparator (model of LINQ `OrderBy` chains). -/
def iSortB {α : Type} (le : α → α → Bool) (l : List α) : List α :=
  List.insertionSort (fun a b => le a b = true) l

/-- The comparator selected by the `switch` on `sortField.ToLowerInvariant()`,
including the direction. -/
def cmpOf (sortField : String) (isDescending : Bool) :
    InventoryItem → InventoryItem → Bool :=
  match lowerStr sortField with
  | "availableqty" => if isDescending then flipLe qtyLe else qtyLe
  | "description" => if isDescending then flipLe descrLe else descrLe
  | "branch" => if isDescending then flipLe branchLe else branchLe
  | "uom" => if isDescending then flipLe uomLe else uomLe
  | "leadtimedays" => if isDescending then leadLeDesc else leadLeAsc
  | "lastpurchasedate" => if isDescending then dateLeDesc else dateLeAsc
  | _ => if isDescending then flipLe partLe else partLe

/-- The `switch` statement: stable sort by the selected comparator. -/
def sortItems (sortField : String) (isDescending : Bool)
    (l : List InventoryItem) : List InventoryItem :=
  iSortB (cmpOf sortField isDescending) l

/- ### The filter / sort / page pipeline of `SearchInventoryAsync` -/

/-- Criteria filter: case-insensitive substring match against the field
selected by `By` (`PartNumber` is the `switch` default). -/
def filterByCriteria (r : InventorySearchRequest)
    (l : List InventoryItem) : List InventoryItem :=
  if isNullOrWhiteSpace r.Criteria then l
  else
    let criteria := lowerStr (r.Criteria.getD "")
    match r.By with
    | some "Description" =>
        l.filter (fun i => strContains (lowerStr (i.description.getD "")) criteria)
    | some "SupplierSku" =>
        l.filter (fun i => strContains (lowerStr (i.supplierSku.getD "")) criteria)
    | _ =>
        l.filter (fun i => strContains (lowerStr (i.partNumber.getD "")) criteria)

/-- Branch filter: comma-split, trimmed, lowercased membership set. -/
def filterByBranches (r : InventorySearchRequest)
    (l : List InventoryItem) : List InventoryItem :=
  if isNullOrWhiteSpace r.Branches then l
  else
    let branchSet := (splitRemoveEmpty ',' (r.Branches.getD "")).map
      (fun b => lowerStr (trimStr b))
    l.filter (fun i => branchSet.contains (lowerStr (i.branch.getD "")))

/-- Availability filter: keep `AvailableQty > 0` when `OnlyAvailable`. -/
def filterByAvailability (r : InventorySearchRequest)
    (l : List InventoryItem) : List InventoryItem :=
  if r.OnlyAvailable then l.filter (fun i => decide (i.availableQty > 0)) else l

/-- All three filters, in source order. -/
def filteredItems (r : InventorySearchRequest)
    (l : List InventoryItem) : List InventoryItem :=
  filterByAvailability r (filterByBranches r (filterByCriteria r l))

/-- `sortField`: first piece of `request.Sort` split on `:`, trimmed. -/
def sortFieldOf (r : InventorySearchRequest) : String :=
  let sortParts := splitRemoveEmpty ':' (r.SortText.getD "")
  if sortParts.length > 0 then trimStr (sortParts.getD 0 "") else ""

/-- `sortDirection`: second piece of `request.Sort`, defaulting to `"asc"`. -/
def sortDirectionOf (r : InventorySearchRequest) : String :=
  let sortParts := splitRemoveEmpty ':' (r.SortText.getD "")
  if sortParts.length > 1 then trimStr (sortParts.getD 1 "") else "asc"

/-- `string.Equals(sortDirection, "desc", OrdinalIgnoreCase)`. -/
def isDescOf (r : InventorySearchRequest) : Bool :=
  lowerStr (sortDirectionOf r) == "desc"

/-- The sort step: skipped entirely when the sort field is null/whitespace. -/
def sortStage (r : InventorySearchRequest)
    (l : List InventoryItem) : List InventoryItem :=
  if isWhiteSpaceStr (sortFieldOf r) then l
  else sortItems (sortFieldOf r) (isDescOf r) l

/-- C# unchecked 32-bit signed arithmetic: reduce a mathematical integer to
the representative in `[-2^31, 2^31)` that a wrapping `int` computation
produces. -/
def wrap32 (x : Int) : Int := (x + 2147483648) % 4294967296 - 2147483648

/-- `InventoryService.SearchInventoryAsync`.  The repository answer is passed
in as `repoItems` (`none` models a null list from the repository).  The
boolean records whether the repository was consulted
(`await _repository.GetAllItemsAsync()` executed).  The skip count
`safePage * safeSize` is a C# `int` product and wraps (unchecked 32-bit
multiplication), and LINQ `Skip` skips nothing when its count is negative —
both modelled by `wrap32` followed by `Int.toNat`. -/
def searchInventoryRun (request : Option InventorySearchRequest)
    (repoItems : Option (List InventoryItem)) : SearchResult × Bool :=
  match request with
  | none => (⟨0, []⟩, false)
  | some r =>
    let workingItems := sortStage r (filteredItems r (repoItems.getD []))
    let safePage := if r.Page < 0 then 0 else r.Page
    let safeSize := if r.Size ≤ 0 then 20 else r.Size
    (⟨(workingItems.length : Int),
      (workingItems.drop (wrap32 (safePage * safeSize)).toNat).take safeSize.toNat⟩,
      true)

/-- The `SearchResult` returned by `SearchInventoryAsync`. -/
def searchInventoryAsync (request : Option InventorySearchRequest)
    (repoItems : Option (List InventoryItem)) : SearchResult :=
  (searchInventoryRun request repoItems).1

/- ### HTTP boundary (`InventoryController.Search`) -/

/-- `ResponseEnvelope<T>` as observed through `Success`/`Failure`. -/
structure ResponseEnvelope (α : Type) where
  isFailed : Bool
  message : Option String
  data : Option α
deriving DecidableEq

/-- `ResponseEnvelope<T>.Success(d)`. -/
def envSuccess {α : Type} (d : α) : ResponseEnvelope α := ⟨false, none, some d⟩

/-- `ResponseEnvelope<T>.Failure(m)`. -/
def envFailure {α : Type} (m : String) : ResponseEnvelope α := ⟨true, some m, none⟩

/-- The controller's possible HTTP-shaped outcomes. -/
inductive ControllerResult where
  | badRequest (env : ResponseEnvelope SearchResult)
  | notFound (env : ResponseEnvelope SearchResult)
  | ok (env : ResponseEnvelope SearchResult)
deriving DecidableEq

/-- `AllowedSearchByFields` (membership is case-insensitive). -/
def allowedSearchByFields : List String := ["PartNumber", "Description", "SupplierSku"]

/-- `AllowedSortFields` (already lowercase in the source). -/
def allowedSortFields : List String :=
  ["", "partnumber", "description", "availableqty", "branch", "uom",
   "leadtimedays", "lastpurchasedate"]

/-- `sortField` as parsed by the controller. -/
def ctrlSortField (sort : String) : String :=
  let parsedSort := splitRemoveEmpty ':' sort
  if parsedSort.length > 0 then trimStr (parsedSort.getD 0 "") else ""

/-- `sortDirection` as parsed by the controller. -/
def ctrlSortDirection (sort : String) : String :=
  let parsedSort := splitRemoveEmpty ':' sort
  if parsedSort.length > 1 then trimStr (parsedSort.getD 1 "") else "asc"

/-- The `InventorySearchRequest` the controller builds once validation
passes. -/
def controllerRequest (criteria byParam branches : String) (onlyAvailable : Bool)
    (page size : Int) (sort : String) : InventorySearchRequest :=
  { Criteria := some criteria
    By := some byParam
    Branches := some branches
    OnlyAvailable := onlyAvailable
    Page := page
    Size := size
    SortText := some (if isWhiteSpaceStr (ctrlSortField sort) then ""
      else ctrlSortField sort ++ ":" ++ ctrlSortDirection sort) }

/-- `InventoryController.Search`: the validation chain, then the service call,
then the zero-total-to-NotFound mapping. -/
def controllerSearch (criteria byParam branches : String) (onlyAvailable : Bool)
    (page size : Int) (sort : String) (fail : Bool)
    (repoItems : Option (List InventoryItem)) : ControllerResult :=
  let sortField := ctrlSortField sort
  let sortDirection := ctrlSortDirection sort
  if !(isWhiteSpaceStr sortField) &&
      (lowerStr sortField == "suppliersku" || lowerStr sortField == "lots") then
    .badRequest (envFailure "supplierSku and lots are not sortable fields.")
  else if fail then
    .badRequest (envFailure "Simulated failure requested.")
  else if page < 0 then
    .badRequest (envFailure "Page must be zero or greater.")
  else if size ≤ 0 ∨ size > 200 then
    .badRequest (envFailure "Size must be between 1 and 200.")
  else if !((allowedSearchByFields.map lowerStr).contains (lowerStr byParam)) then
    .badRequest (envFailure
      "Search field must be one of: PartNumber, Description, SupplierSku.")
  else if !(allowedSortFields.contains (lowerStr sortField)) then
    .badRequest (envFailure "Sort field is not supported.")
  else if !(lowerStr sortDirection == "asc" || lowerStr sortDirection == "desc") then
    .badRequest (envFailure "Sort direction must be asc or desc.")
  else
    let result := searchInventoryAsync
      (some (controllerRequest criteria byParam branches onlyAvailable page size sort))
      repoItems
    if result.Total = 0 then
      .notFound (envFailure "No inventory found for the provided criteria.")
    else
      .ok (envSuccess result)

/- ### Client-side model (`InventorySearchApiService`) -/

/-- The optional `sort` member of `InventorySearchQuery`. -/
structure SortSpec where
  field : String
  direction : String
deriving DecidableEq

/-- `InventorySearchQuery` (the TS field `by` is named `byField`: `by` is a
Lean keyword).  An absent (`undefined`) and an empty (`null`) `sort` are both
falsy in the source and both embed to `none`. -/
structure InventorySearchQuery where
  criteria : String
  byField : String
  branches : List String
  onlyAvailable : Bool
  page : Nat
  size : Nat
  sort : Option SortSpec
deriving DecidableEq

/-- JS `Array.prototype.sort()` on strings: sort into code-unit order
(modelled by Lean's linear order on `String`; only the sortedness matters for
the properties proved here). -/
def sortStrings (l : List String) : List String :=
  List.insertionSort (fun a b : String => strLe a b = true) l

/-- `InventorySearchApiService.cacheKey`. -/
def cacheKey (q : InventorySearchQuery) : String :=
  let branches := String.intercalate "|" (sortStrings q.branches)
  let sortStr := match q.sort with
    | some s => s.field ++ ":" ++ s.direction
    | none => ""
  String.intercalate "::"
    [lowerStr (trimStr q.criteria), q.byField, branches,
     if q.onlyAvailable then "1" else "0",
     toString q.page, toString q.size, sortStr]

/-- A cache slot: expiry timestamp and the identity of the shared
`shareReplay` observable stored for the key (the pending-result handle). -/
structure CacheEntry where
  expiry : Int
  handle : Nat
deriving DecidableEq

/-- A JS `Map` in insertion order: an association list whose `set` updates in
place and appends new keys at the end. -/
abbrev CacheMap := List (String × CacheEntry)

/-- `Map.get`. -/
def mapFind (m : CacheMap) (k : String) : Option CacheEntry :=
  match m with
  | [] => none
  | (k', e) :: t => if k' = k then some e else mapFind t k

/-- `Map.delete` (a JS `Map` holds each key at most once, so dropping every
binding of `k` is the same operation). -/
def mapDelete (m : CacheMap) (k : String) : CacheMap :=
  m.filter (fun p => p.1 != k)

/-- `Map.set`: overwrite in place, or append at the newest position. -/
def mapSet (m : CacheMap) (k : String) (e : CacheEntry) : CacheMap :=
  match m with
  | [] => [(k, e)]
  | (k', e') :: t => if k' = k then (k, e) :: t else (k', e') :: mapSet t k e

/-- `trim`: `while (cache.size > CACHE_MAX_ENTRIES) delete the oldest key`. -/
def trimCache : CacheMap → CacheMap
  | [] => []
  | p :: t => if (p :: t).length > 5 then trimCache t else p :: t

/-- `CACHE_TTL_MS`. -/
def cacheTtlMs : Int := 60000

/-- `remember`: store with `expiry = now + CACHE_TTL_MS`, then `trim`. -/
def rememberC (m : CacheMap) (k : String) (h : Nat) (now : Int) : CacheMap :=
  trimCache (mapSet m k ⟨now + cacheTtlMs, h⟩)

/-- `getCached`: return the live entry, or delete and miss when the entry is
absent or `entry.expiry < Date.now()`. -/
def getCachedC (m : CacheMap) (now : Int) (k : String) :
    Option CacheEntry × CacheMap :=
  match mapFind m k with
  | none => (none, mapDelete m k)
  | some e => if e.expiry < now then (none, mapDelete m k) else (some e, m)

/-- The pre-lookup sweep of the array-based revision of the service
(`this.cache = this.cache.filter((entry) => entry.expiry > now)`). -/
def sweepCache (m : CacheMap) (now : Int) : CacheMap :=
  m.filter (fun p => decide (p.2.expiry > now))

/-- Service state: the search cache plus a supply of fresh observable
identities (each HTTP pipeline built is a new `shareReplay` handle). -/
structure SvcState where
  cache : CacheMap
  nextHandle : Nat
deriving DecidableEq

/-- Outcome of one `search(query)` call: the observable handle returned to
the caller, the state afterwards, and whether a new HTTP request pipeline was
built (a remote call). -/
structure SearchCall where
  handle : Nat
  state : SvcState
  didFetch : Bool
deriving DecidableEq

/-- `InventorySearchApiService.search` (Map-based revision): consult
`getCached`; on a hit return the stored shared observable, otherwise build a
new HTTP observable and `remember` it. -/
def svcSearch (s : SvcState) (now : Int) (q : InventorySearchQuery) : SearchCall :=
  let k := cacheKey q
  match getCachedC s.cache now k with
  | (some e, m) => ⟨e.handle, ⟨m, s.nextHandle⟩, false⟩
  | (none, m) => ⟨s.nextHandle, ⟨rememberC m k s.nextHandle now, s.nextHandle + 1⟩, true⟩

/-- The `catchError` handler of the stored observable: when the remote fetch
for `k` fails, the cache entry is deleted (`this.searchCache.delete(key)`)
and only then is the error rethrown to subscribers. -/
def onFetchError (s : SvcState) (k : String) : SvcState :=
  ⟨mapDelete s.cache k, s.nextHandle⟩

/-- The mutating operations a cache instance undergoes. -/
inductive CacheOp where
  | lookup (now : Int) (k : String)
  | store (now : Int) (k : String) (h : Nat)
  | erase (k : String)

/-- One mutating operation on a cache instance. -/
def cacheStep (m : CacheMap) : CacheOp → CacheMap
  | .lookup now k => (getCachedC m now k).2
  | .store now k h => rememberC m k h now
  | .erase k => mapDelete m k

/-- A whole history of operations, starting from the empty cache. -/
def runCacheOps (ops : List CacheOp) : CacheMap :=
  ops.foldl cacheStep []

/- ### Auxiliary predicates and concrete fixtures used by the theorems -/

/-- The item has no `LeadTimeDays` value. -/
def absentLead (i : InventoryItem) : Bool := i.leadTimeDays.isNone

/-- The item has no `LastPurchaseDate` value. -/
def absentDate (i : InventoryItem) : Bool := i.lastPurchaseDate.isNone

/-- Modelled from the spec: "unsupported/absent field defaults to PartNumber
ascending" — a list is PartNumber-ascending when consecutive part numbers are
non-decreasing.  Used only to compare the spec's wording with the engine. -/
def sortedByPartAsc : List InventoryItem → Bool
  | [] => true
  | [_] => true
  | a :: b :: t => partLe a b && sortedByPartAsc (b :: t)

/-- The named (non-default) branches of the engine's sort `switch`. -/
def engineSortCases : List String :=
  ["availableqty", "description", "branch", "uom", "leadtimedays", "lastpurchasedate"]

/-- An item distinguished only by its quantity, for paging fixtures. -/
def qtyItem (n : Nat) : InventoryItem :=
  ⟨some "p", none, none, none, none, none, none, (n : Int)⟩

/-- 47 items, in repository order, indexed by `availableQty`. -/
def items47 : List InventoryItem := (List.range 47).map qtyItem

/-- Page 2, size 20, no criteria, no sort. -/
def req47 : InventorySearchRequest := ⟨none, none, none, false, 2, 20, none⟩

/-- An item whose only populated field is its part number. -/
def pnItem (pn : String) : InventoryItem :=
  ⟨some pn, none, none, none, none, none, none, 1⟩

/-- A request with no criteria, no branches, no sort. -/
def plainReq : InventorySearchRequest := ⟨none, none, none, false, 0, 20, none⟩

/-- A minimal client query. -/
def plainQuery : InventorySearchQuery :=
  ⟨"q", "PartNumber", [], false, 0, 20, none⟩

/-- Totality of a boolean comparator. -/
def TotalB {α : Type} (le : α → α → Bool) : Prop :=
  ∀ a b, le a b = true ∨ le b a = true

/-- Transitivity of a boolean comparator. -/
def TransB {α : Type} (le : α → α → Bool) : Prop :=
  ∀ a b c, le a b = true → le b c = true → le a c = true

/-- A full capacity-5 cache, oldest first. -/
def fifoCache : CacheMap :=
  [("a", ⟨9, 1⟩), ("b", ⟨9, 2⟩), ("c", ⟨9, 3⟩), ("d", ⟨9, 4⟩), ("e", ⟨9, 5⟩)]

/- ### Lemmas about the JS `Map` model -/

theorem mapFind_eq_none_iff (m : CacheMap) (k : String) :
    mapFind m k = none ↔ ∀ p ∈ m, p.1 ≠ k := by
  induction m with
  | nil => simp [mapFind]
  | cons p t ih =>
    obtain ⟨k', e⟩ := p
    by_cases h : k' = k
    · subst h
      simp [mapFind]
    · simp [mapFind, h, ih]

theorem mapDelete_mem_ne (m : CacheMap) (k : String) :
    ∀ p ∈ mapDelete m k, p.1 ≠ k := by
  intro p hp
  have := List.of_mem_filter hp
  simpa using this

theorem mapFind_mapDelete (m : CacheMap) (k : String) :
    mapFind (mapDelete m k) k = none :=
  (mapFind_eq_none_iff _ _).2 (mapDelete_mem_ne m k)

theorem mapSet_of_absent (m : CacheMap) (k : String) (e : CacheEntry)
    (h : ∀ p ∈ m, p.1 ≠ k) : mapSet m k e = m ++ [(k, e)] := by
  induction m with
  | nil => rfl
  | cons p t ih =>
    obtain ⟨k', e'⟩ := p
    have hk : k' ≠ k := h (k', e') (by simp)
    simp [mapSet, hk, ih (fun q hq => h q (by simp [hq]))]

theorem mapFind_append_of_none (l₁ l₂ : CacheMap) (k : String)
    (h : mapFind l₁ k = none) : mapFind (l₁ ++ l₂) k = mapFind l₂ k := by
  induction l₁ with
  | nil => rfl
  | cons p t ih =>
    obtain ⟨k', e⟩ := p
    by_cases hk : k' = k
    · simp [mapFind, hk] at h
    · simp only [mapFind, List.cons_append, if_neg hk] at h ⊢
      exact ih h

theorem trimCache_eq_drop (m : CacheMap) : trimCache m = m.drop (m.length - 5) := by
  induction m with
  | nil => rfl
  | cons p t ih =>
    by_cases h : (p :: t).length > 5
    · rw [trimCache, if_pos h, ih]
      have hlen : (p :: t).length - 5 = (t.length - 5) + 1 := by
        simp only [List.length_cons] at h ⊢
        omega
      rw [hlen, List.drop_succ_cons]
    · rw [trimCache, if_neg h]
      have hlen : (p :: t).length - 5 = 0 := by
        simp only [List.length_cons] at h ⊢
        omega
      rw [hlen, List.drop_zero]

theorem trimCache_length_le (m : CacheMap) : (trimCache m).length ≤ 5 := by
  rw [trimCache_eq_drop, List.length_drop]
  omega

theorem mapFind_rememberC_self (m : CacheMap) (k : String) (h : Nat) (now : Int)
    (hk : mapFind m k = none) :
    mapFind (rememberC m k h now) k = some ⟨now + cacheTtlMs, h⟩ := by
  unfold rememberC
  rw [mapSet_of_absent _ _ _ ((mapFind_eq_none_iff m k).1 hk), trimCache_eq_drop]
  have hlen : (m ++ [((k : String), (⟨now + cacheTtlMs, h⟩ : CacheEntry))]).length - 5
      ≤ m.length := by
    simp only [List.length_append, List.length_cons, List.length_nil]
    omega
  rw [List.drop_append_of_le_length hlen, mapFind_append_of_none]
  · simp [mapFind]
  · exact (mapFind_eq_none_iff _ _).2
      (fun p hp => (mapFind_eq_none_iff m k).1 hk p (List.drop_subset _ _ hp))

theorem mapDelete_length_le (m : CacheMap) (k : String) :
    (mapDelete m k).length ≤ m.length :=
  List.length_filter_le _ _

theorem getCachedC_snd_length_le (m : CacheMap) (now : Int) (k : String) :
    ((getCachedC m now k).2).length ≤ m.length := by
  unfold getCachedC
  cases hf : mapFind m k with
  | none => simpa using mapDelete_length_le m k
  | some e =>
    by_cases h : e.expiry < now
    · simp only [if_pos h]
      exact mapDelete_length_le m k
    · simp only [if_neg h]
      exact le_refl _

theorem cacheStep_length_le (m : CacheMap) (op : CacheOp) (hm : m.length ≤ 5) :
    (cacheStep m op).length ≤ 5 := by
  cases op with
  | lookup now k => exact le_trans (getCachedC_snd_length_le m now k) hm
  | store now k h => exact trimCache_length_le _
  | erase k => exact le_trans (mapDelete_length_le m k) hm

theorem runCacheOps_length_le (ops : List CacheOp) : (runCacheOps ops).length ≤ 5 := by
  unfold runCacheOps
  have main : ∀ m : CacheMap, m.length ≤ 5 → (ops.foldl cacheStep m).length ≤ 5 := by
    induction ops with
    | nil => intro m hm; simpa using hm
    | cons op t ih => intro m hm; exact ih _ (cacheStep_length_le m op hm)
  exact main [] (by simp)

/- ### Lemmas about the stable sort model -/

theorem orderedInsert_filter {α : Type} (le : α → α → Bool) (P : α → Bool)
    (hPle : ∀ x y, P x = true → P y = true → le x y = true) (a : α) :
    ∀ s : List α,
      (List.orderedInsert (fun x y => le x y = true) a s).filter P =
        if P a then a :: s.filter P else s.filter P
  | [] => by
    simp [List.orderedInsert, List.filter_cons]
  | b :: t => by
    by_cases hab : le a b = true
    · rw [List.orderedInsert, if_pos hab, List.filter_cons]
    · rw [List.orderedInsert, if_neg hab, List.filter_cons,
        orderedInsert_filter le P hPle a t]
      by_cases hPa : P a = true
      · have hPb : ¬ P b = true := fun hPb => hab (hPle a b hPa hPb)
        rw [if_neg hPb, if_pos hPa, if_pos hPa, List.filter_cons, if_neg hPb]
      · rw [if_neg hPa, if_neg hPa, List.filter_cons]

theorem iSortB_filter {α : Type} (le : α → α → Bool) (P : α → Bool)
    (hPle : ∀ x y, P x = true → P y = true → le x y = true) :
    ∀ l : List α, (iSortB le l).filter P = l.filter P
  | [] => rfl
  | a :: l => by
    show (List.orderedInsert (fun x y => le x y = true) a
        (List.insertionSort (fun x y => le x y = true) l)).filter P = _
    rw [orderedInsert_filter le P hPle a _, List.filter_cons]
    have ih := iSortB_filter le P hPle l
    unfold iSortB at ih
    rw [ih]

theorem iSortB_perm {α : Type} (le : α → α → Bool) (l : List α) :
    (iSortB le l).Perm l :=
  List.perm_insertionSort _ l

theorem iSortB_length {α : Type} (le : α → α → Bool) (l : List α) :
    (iSortB le l).length = l.length :=
  (iSortB_perm le l).length_eq

theorem iSortB_sorted {α : Type} (le : α → α → Bool)
    (htot : TotalB le) (htr : TransB le) (l : List α) :
    List.Sorted (fun a b => le a b = true) (iSortB le l) := by
  haveI : IsTotal α (fun a b => le a b = true) := ⟨htot⟩
  haveI : IsTrans α (fun a b => le a b = true) := ⟨fun a b c => htr a b c⟩
  exact List.sorted_insertionSort _ l

/- ### Totality and transitivity of the engine's comparators -/

theorem listCharLe_total : ∀ a b : List Char,
    listCharLe a b = true ∨ listCharLe b a = true
  | [], _ => Or.inl rfl
  | _ :: _, [] => Or.inr rfl
  | a :: as, b :: bs => by
    by_cases h1 : a.toNat < b.toNat
    · left
      simp [listCharLe, h1]
    · by_cases h2 : b.toNat < a.toNat
      · right
        simp [listCharLe, h2]
      · rcases listCharLe_total as bs with h | h
        · left
          simp [listCharLe, h1, h2, h]
        · right
          simp [listCharLe, h1, h2, h]

theorem listCharLe_trans : ∀ a b c : List Char,
    listCharLe a b = true → listCharLe b c = true → listCharLe a c = true
  | [], _, _, _, _ => rfl
  | _ :: _, [], _, h1, _ => by simp [listCharLe] at h1
  | _ :: _, _ :: _, [], _, h2 => by simp [listCharLe] at h2
  | x :: xs, y :: ys, z :: zs, h1, h2 => by
    by_cases hxy : x.toNat < y.toNat
    · by_cases hzy : z.toNat < y.toNat
      · by_cases hyz : y.toNat < z.toNat
        · simp [listCharLe, show x.toNat < z.toNat by omega]
        · simp [listCharLe, hyz, hzy] at h2
      · simp [listCharLe, show x.toNat < z.toNat by omega]
    · by_cases hyx : y.toNat < x.toNat
      · simp [listCharLe, hxy, hyx] at h1
      · by_cases hyz : y.toNat < z.toNat
        · simp [listCharLe, show x.toNat < z.toNat by omega]
        · by_cases hzy : z.toNat < y.toNat
          · simp [listCharLe, hyz, hzy] at h2
          · have hxz : ¬ x.toNat < z.toNat := by omega
            have hzx : ¬ z.toNat < x.toNat := by omega
            simp only [listCharLe, if_neg hxy, if_neg hyx] at h1
            simp only [listCharLe, if_neg hyz, if_neg hzy] at h2
            simp only [listCharLe, if_neg hxz, if_neg hzx]
            exact listCharLe_trans xs ys zs h1 h2

theorem listCharLe_antisymm : ∀ a b : List Char,
    listCharLe a b = true → listCharLe b a = true → a = b
  | [], [], _, _ => rfl
  | [], _ :: _, _, h2 => by simp [listCharLe] at h2
  | _ :: _, [], h1, _ => by simp [listCharLe] at h1
  | x :: xs, y :: ys, h1, h2 => by
    by_cases hxy : x.toNat < y.toNat
    · simp [listCharLe, hxy, show ¬ y.toNat < x.toNat by omega] at h2
    · by_cases hyx : y.toNat < x.toNat
      · simp [listCharLe, hxy, hyx] at h1
      · have hn : x.toNat = y.toNat := by omega
        have hc : x = y := Char.eq_of_val_eq (UInt32.ext hn)
        simp only [listCharLe, if_neg hxy, if_neg hyx] at h1
        simp only [listCharLe, if_neg hyx, if_neg hxy] at h2
        rw [hc, listCharLe_antisymm xs ys h1 h2]

theorem strLe_total : ∀ a b : String, strLe a b = true ∨ strLe b a = true :=
  fun a b => listCharLe_total a.data b.data

theorem strLe_trans : ∀ a b c : String,
    strLe a b = true → strLe b c = true → strLe a c = true :=
  fun a b c => listCharLe_trans a.data b.data c.data

theorem strLe_antisymm (a b : String)
    (h1 : strLe a b = true) (h2 : strLe b a = true) : a = b := by
  cases a with
  | mk da =>
    cases b with
    | mk db =>
      rw [listCharLe_antisymm da db h1 h2]

theorem optStrLe_total : TotalB optStrLe := by
  intro a b
  cases a <;> cases b <;> simp [optStrLe]
  exact strLe_total _ _

theorem optStrLe_trans : TransB optStrLe := by
  intro a b c h1 h2
  cases a <;> cases b <;> cases c <;> simp_all [optStrLe]
  exact strLe_trans _ _ _ h1 h2

theorem flipLe_total {α : Type} (le : α → α → Bool) (h : TotalB le) :
    TotalB (flipLe le) :=
  fun a b => (h b a).imp id id

theorem flipLe_trans {α : Type} (le : α → α → Bool) (h : TransB le) :
    TransB (flipLe le) :=
  fun a b c h1 h2 => h c b a h2 h1

theorem presLexLe_iff {α : Type} (p : α → Nat) (v : α → Int) (a b : α) :
    presLexLe p v a b = true ↔ (p a < p b ∨ (p a = p b ∧ v a ≤ v b)) := by
  simp [presLexLe, Bool.or_eq_true, Bool.and_eq_true, decide_eq_true_eq, beq_iff_eq]

theorem presLexLe_total {α : Type} (p : α → Nat) (v : α → Int) :
    TotalB (presLexLe p v) := by
  intro a b
  rw [presLexLe_iff, presLexLe_iff]
  omega

theorem presLexLe_trans {α : Type} (p : α → Nat) (v : α → Int) :
    TransB (presLexLe p v) := by
  intro a b c h1 h2
  rw [presLexLe_iff] at h1 h2 ⊢
  omega

theorem qtyLe_total : TotalB qtyLe := by
  intro a b
  simp [qtyLe, decide_eq_true_eq]
  omega

theorem qtyLe_trans : TransB qtyLe := by
  intro a b c h1 h2
  simp [qtyLe, decide_eq_true_eq] at *
  omega

theorem descrLe_total : TotalB descrLe := fun _ _ => optStrLe_total _ _

theorem descrLe_trans : TransB descrLe := fun _ _ _ => optStrLe_trans _ _ _

theorem branchLe_total : TotalB branchLe := fun _ _ => optStrLe_total _ _

theorem branchLe_trans : TransB branchLe := fun _ _ _ => optStrLe_trans _ _ _

theorem uomLe_total : TotalB uomLe := fun _ _ => optStrLe_total _ _

theorem uomLe_trans : TransB uomLe := fun _ _ _ => optStrLe_trans _ _ _

theorem partLe_total : TotalB partLe := fun _ _ => optStrLe_total _ _

theorem partLe_trans : TransB partLe := fun _ _ _ => optStrLe_trans _ _ _

theorem cmpOf_total (fld : String) (d : Bool) : TotalB (cmpOf fld d) := by
  unfold cmpOf
  split <;> cases d
  · exact qtyLe_total
  · exact flipLe_total _ qtyLe_total
  · exact descrLe_total
  · exact flipLe_total _ descrLe_total
  · exact branchLe_total
  · exact flipLe_total _ branchLe_total
  · exact uomLe_total
  · exact flipLe_total _ uomLe_total
  · exact presLexLe_total _ _
  · exact presLexLe_total _ _
  · exact presLexLe_total _ _
  · exact presLexLe_total _ _
  · exact partLe_total
  · exact flipLe_total _ partLe_total

theorem cmpOf_trans (fld : String) (d : Bool) : TransB (cmpOf fld d) := by
  unfold cmpOf
  split <;> cases d
  · exact qtyLe_trans
  · exact flipLe_trans _ qtyLe_trans
  · exact descrLe_trans
  · exact flipLe_trans _ descrLe_trans
  · exact branchLe_trans
  · exact flipLe_trans _ branchLe_trans
  · exact uomLe_trans
  · exact flipLe_trans _ uomLe_trans
  · exact presLexLe_trans _ _
  · exact presLexLe_trans _ _
  · exact presLexLe_trans _ _
  · exact presLexLe_trans _ _
  · exact partLe_trans
  · exact flipLe_trans _ partLe_trans

/- ### Helper lemmas about the engine pipeline -/

theorem sortStage_nil (r : InventorySearchRequest) : sortStage r [] = [] := by
  unfold sortStage
  split
  · rfl
  · rfl

theorem sortStage_length (r : InventorySearchRequest) (l : List InventoryItem) :
    (sortStage r l).length = l.length := by
  unfold sortStage
  split
  · rfl
  · exact iSortB_length _ _

theorem absentLead_iff_pres (i : InventoryItem) :
    absentLead i = true ↔ leadPres i = 1 := by
  cases h : i.leadTimeDays <;> simp [absentLead, leadPres, h]

theorem leadPres_le_one (i : InventoryItem) : leadPres i ≤ 1 := by
  unfold leadPres
  split <;> omega

theorem absentDate_iff_pres (i : InventoryItem) :
    absentDate i = true ↔ datePres i = 1 := by
  cases h : i.lastPurchaseDate <;> simp [absentDate, datePres, h]

theorem datePres_le_one (i : InventoryItem) : datePres i ≤ 1 := by
  unfold datePres
  split <;> omega

theorem absentLead_eq_none (i : InventoryItem) (h : absentLead i = true) :
    i.leadTimeDays = none := by
  simpa [absentLead] using h

theorem absentDate_eq_none (i : InventoryItem) (h : absentDate i = true) :
    i.lastPurchaseDate = none := by
  simpa [absentDate] using h

theorem presLex_absent {α : Type} (p : α → Nat) (v : α → Int)
    (hp : ∀ x, p x ≤ 1) (a b : α)
    (h : presLexLe p v a b = true) (ha : p a = 1) : p b = 1 := by
  rw [presLexLe_iff] at h
  have := hp b
  omega

theorem presLex_tied {α : Type} (p : α → Nat) (v : α → Int) (a b : α)
    (hpa : p a = 1) (hpb : p b = 1) (hv : v a = v b) :
    presLexLe p v a b = true := by
  rw [presLexLe_iff]
  omega

/-- Combined shape of a nullable-field sort: present-before-absent pairwise
order, permutation of the input, and preservation of the absent group. -/
theorem nullable_sort_spec {α : Type} (le : α → α → Bool) (P : α → Bool)
    (htot : TotalB le) (htr : TransB le)
    (habs : ∀ a b, le a b = true → P a = true → P b = true)
    (hPle : ∀ a b, P a = true → P b = true → le a b = true) (l : List α) :
    (iSortB le l).Pairwise (fun a b => P a = true → P b = true) ∧
      (iSortB le l).Perm l ∧ (iSortB le l).filter P = l.filter P := by
  refine ⟨?_, iSortB_perm le l, iSortB_filter le P hPle l⟩
  exact List.Pairwise.imp (fun h hPa => habs _ _ h hPa) (iSortB_sorted le htot htr l)

/- ### Determinism of the client's branch sort under permutation -/

theorem sortStrings_perm_congr {l₁ l₂ : List String} (h : l₁.Perm l₂) :
    sortStrings l₁ = sortStrings l₂ := by
  haveI : IsAntisymm String (fun a b : String => strLe a b = true) :=
    ⟨fun a b h1 h2 => strLe_antisymm a b h1 h2⟩
  haveI : IsTotal String (fun a b : String => strLe a b = true) :=
    ⟨fun a b => strLe_total a b⟩
  haveI : IsTrans String (fun a b : String => strLe a b = true) :=
    ⟨fun a b c h1 h2 => strLe_trans a b c h1 h2⟩
  exact List.eq_of_perm_of_sorted
    (((List.perm_insertionSort _ l₁).trans h).trans
      (List.perm_insertionSort _ l₂).symm)
    (List.sorted_insertionSort _ l₁) (List.sorted_insertionSort _ l₂)

/- ### Claim theorems -/

/-- C4: two queries that are structurally different but differ only in branch
ordering, criteria casing or surrounding whitespace (captured by equality of
the trimmed, lowercased criteria), or absent-versus-empty sort (both of which
embed to `none`, being falsy in the source) produce identical cache keys. -/
theorem c4_cacheKey_normalization (q1 q2 : InventorySearchQuery)
    (hcrit : lowerStr (trimStr q1.criteria) = lowerStr (trimStr q2.criteria))
    (hbr : q1.branches.Perm q2.branches)
    (hby : q1.byField = q2.byField)
    (hav : q1.onlyAvailable = q2.onlyAvailable)
    (hpage : q1.page = q2.page)
    (hsize : q1.size = q2.size)
    (hsort : q1.sort = q2.sort) :
    cacheKey q1 = cacheKey q2 := by
  unfold cacheKey
  rw [hcrit, hby, hav, hpage, hsize, hsort, sortStrings_perm_congr hbr]

/-- C4 witness: different casing, surrounding whitespace and branch order,
same key. -/
theorem c4_cacheKey_normalization_witness :
    cacheKey ⟨"  ABC ", "PartNumber", ["b", "a"], false, 0, 20, none⟩ =
      cacheKey ⟨"abc", "PartNumber", ["a", "b"], false, 0, 20, none⟩ :=
  c4_cacheKey_normalization _ _ (by decide) (by decide) rfl rfl rfl rfl rfl

/-- C6: sorting by a nullable field (`leadTimeDays` or `lastPurchaseDate`) in
either direction puts every present-valued item before every absent-valued
item, permutes the input (direction reorders only within the present group),
and leaves the absent-valued items in their original relative order at the
end. -/
theorem c6_nullable_sort_absent_last (items : List InventoryItem) (isDesc : Bool) :
    ((sortItems "leadTimeDays" isDesc items).Pairwise
        (fun a b => absentLead a = true → absentLead b = true) ∧
      (sortItems "leadTimeDays" isDesc items).Perm items ∧
      (sortItems "leadTimeDays" isDesc items).filter absentLead =
        items.filter absentLead) ∧
    ((sortItems "lastPurchaseDate" isDesc items).Pairwise
        (fun a b => absentDate a = true → absentDate b = true) ∧
      (sortItems "lastPurchaseDate" isDesc items).Perm items ∧
      (sortItems "lastPurchaseDate" isDesc items).filter absentDate =
        items.filter absentDate) := by
  constructor
  · cases isDesc
    · exact nullable_sort_spec leadLeAsc absentLead
        (presLexLe_total _ _) (presLexLe_trans _ _)
        (fun a b h ha => (absentLead_iff_pres b).2
          (presLex_absent _ _ leadPres_le_one a b h ((absentLead_iff_pres a).1 ha)))
        (fun a b ha hb => presLex_tied _ _ a b
          ((absentLead_iff_pres a).1 ha) ((absentLead_iff_pres b).1 hb)
          (by rw [absentLead_eq_none a ha, absentLead_eq_none b hb]))
        items
    · exact nullable_sort_spec leadLeDesc absentLead
        (presLexLe_total _ _) (presLexLe_trans _ _)
        (fun a b h ha => (absentLead_iff_pres b).2
          (presLex_absent _ _ leadPres_le_one a b h ((absentLead_iff_pres a).1 ha)))
        (fun a b ha hb => presLex_tied _ _ a b
          ((absentLead_iff_pres a).1 ha) ((absentLead_iff_pres b).1 hb)
          (by rw [absentLead_eq_none a ha, absentLead_eq_none b hb]))
        items
  · cases isDesc
    · exact nullable_sort_spec dateLeAsc absentDate
        (presLexLe_total _ _) (presLexLe_trans _ _)
        (fun a b h ha => (absentDate_iff_pres b).2
          (presLex_absent _ _ datePres_le_one a b h ((absentDate_iff_pres a).1 ha)))
        (fun a b ha hb => presLex_tied _ _ a b
          ((absentDate_iff_pres a).1 ha) ((absentDate_iff_pres b).1 hb)
          (by rw [absentDate_eq_none a ha, absentDate_eq_none b hb]))
        items
    · exact nullable_sort_spec dateLeDesc absentDate
        (presLexLe_total _ _) (presLexLe_trans _ _)
        (fun a b h ha => (absentDate_iff_pres b).2
          (presLex_absent _ _ datePres_le_one a b h ((absentDate_iff_pres a).1 ha)))
        (fun a b ha hb => presLex_tied _ _ a b
          ((absentDate_iff_pres a).1 ha) ((absentDate_iff_pres b).1 hb)
          (by rw [absentDate_eq_none a ha, absentDate_eq_none b hb]))
        items

/-- C1: starting from a state with no entry for the normalized key, the first
`search` performs the remote request; a second `search` whose query
normalizes to the same key within the 60,000 ms TTL performs no remote
request and receives the same shared pending-result handle, while a second
`search` after the TTL has elapsed performs a second remote request. -/
theorem c1_ttl_single_flight (s0 : SvcState) (t0 t1 : Int)
    (q1 q2 : InventorySearchQuery)
    (hkey : cacheKey q1 = cacheKey q2)
    (hmiss : mapFind s0.cache (cacheKey q1) = none) :
    (svcSearch s0 t0 q1).didFetch = true ∧
    (t1 < t0 + cacheTtlMs →
      (svcSearch (svcSearch s0 t0 q1).state t1 q2).handle =
        (svcSearch s0 t0 q1).handle ∧
      (svcSearch (svcSearch s0 t0 q1).state t1 q2).didFetch = false) ∧
    (t0 + cacheTtlMs < t1 →
      (svcSearch (svcSearch s0 t0 q1).state t1 q2).didFetch = true) := by
  have hcall1 : svcSearch s0 t0 q1 =
      ⟨s0.nextHandle,
        ⟨rememberC (mapDelete s0.cache (cacheKey q1)) (cacheKey q1) s0.nextHandle t0,
          s0.nextHandle + 1⟩, true⟩ := by
    simp [svcSearch, getCachedC, hmiss]
  have hfind : mapFind
      (rememberC (mapDelete s0.cache (cacheKey q1)) (cacheKey q1) s0.nextHandle t0)
      (cacheKey q2) = some ⟨t0 + cacheTtlMs, s0.nextHandle⟩ := by
    rw [← hkey]
    exact mapFind_rememberC_self _ _ _ _ (mapFind_mapDelete _ _)
  refine ⟨by rw [hcall1], fun hlt => ?_, fun hgt => ?_⟩
  · have hno : ¬ ((⟨t0 + cacheTtlMs, s0.nextHandle⟩ : CacheEntry).expiry < t1) := by
      dsimp only
      omega
    constructor <;> (rw [hcall1]; simp [svcSearch, getCachedC, hfind, hno])
  · have hyes : ((⟨t0 + cacheTtlMs, s0.nextHandle⟩ : CacheEntry).expiry < t1) := hgt
    rw [hcall1]
    simp [svcSearch, getCachedC, hfind, hyes]

/-- C1 witness: cold start, hit at 1 ms, new remote request at 70,000 ms. -/
theorem c1_ttl_single_flight_witness :
    (svcSearch ⟨[], 0⟩ 0 plainQuery).didFetch = true ∧
    (svcSearch (svcSearch ⟨[], 0⟩ 0 plainQuery).state 1 plainQuery).handle =
      (svcSearch ⟨[], 0⟩ 0 plainQuery).handle ∧
    (svcSearch (svcSearch ⟨[], 0⟩ 0 plainQuery).state 1 plainQuery).didFetch = false ∧
    (svcSearch (svcSearch ⟨[], 0⟩ 0 plainQuery).state 70000 plainQuery).didFetch = true := by
  have h := c1_ttl_single_flight ⟨[], 0⟩ 0 1 plainQuery plainQuery rfl rfl
  have h' := c1_ttl_single_flight ⟨[], 0⟩ 0 70000 plainQuery plainQuery rfl rfl
  exact ⟨h.1, (h.2.1 (by decide)).1, (h.2.1 (by decide)).2, h'.2.2 (by decide)⟩

/-- C2: every reachable cache holds at most 5 entries after any mutating
operation; storing a 6th distinct key into a full capacity-5 cache evicts
exactly the single oldest-inserted entry, keeping the other four in order and
appending the new entry (FIFO by insertion); a live read returns the cache
unchanged (no promotion on read); and a subsequent `search` whose key is the
evicted one performs a new remote request. -/
theorem c2_capacity_fifo_eviction :
    (∀ ops : List CacheOp, (runCacheOps ops).length ≤ 5) ∧
    (∀ (m : CacheMap) (k : String) (h : Nat) (now : Int),
      m.length = 5 → mapFind m k = none →
      rememberC m k h now = m.tail ++ [(k, ⟨now + cacheTtlMs, h⟩)]) ∧
    (∀ (m : CacheMap) (now : Int) (k : String) (e : CacheEntry),
      mapFind m k = some e → ¬ e.expiry < now →
      getCachedC m now k = (some e, m)) ∧
    (∀ (rest : CacheMap) (k1 k : String) (hnd n : Nat) (now t : Int)
      (q : InventorySearchQuery),
      cacheKey q = k1 → k1 ≠ k → (∀ p ∈ rest, p.1 ≠ k1) →
      (svcSearch ⟨rest ++ [(k, ⟨now + cacheTtlMs, hnd⟩)], n⟩ t q).didFetch = true) := by
  refine ⟨runCacheOps_length_le, ?_, ?_, ?_⟩
  · intro m k h now hm5 hk
    unfold rememberC
    rw [mapSet_of_absent _ _ _ ((mapFind_eq_none_iff _ _).1 hk), trimCache_eq_drop]
    have hl : (m ++ [((k : String), (⟨now + cacheTtlMs, h⟩ : CacheEntry))]).length - 5
        = 1 := by
      simp [hm5]
    rw [hl, List.drop_append_of_le_length (by omega), List.drop_one]
  · intro m now k e hf hlt
    unfold getCachedC
    rw [hf]
    exact if_neg hlt
  · intro rest k1 k hnd n now t q hq hne hrest
    have hfind : mapFind (rest ++ [((k : String),
        (⟨now + cacheTtlMs, hnd⟩ : CacheEntry))]) k1 = none := by
      rw [mapFind_append_of_none _ _ _ ((mapFind_eq_none_iff _ _).2 hrest)]
      simp [mapFind, Ne.symm hne]
    unfold svcSearch
    rw [hq]
    simp [getCachedC, hfind]

/-- C2 witness: the capacity bound on a one-store history; eviction of the
oldest entry of a concrete full cache; an unchanged cache on a live read; and
a remote request for the evicted key. -/
theorem c2_capacity_fifo_eviction_witness :
    (runCacheOps [CacheOp.store 0 "x" 1]).length ≤ 5 ∧
    rememberC fifoCache "f" 6 0 = fifoCache.tail ++ [("f", ⟨0 + cacheTtlMs, 6⟩)] ∧
    getCachedC [("a", ⟨10, 1⟩)] 5 "a" = (some ⟨10, 1⟩, [("a", ⟨10, 1⟩)]) ∧
    (svcSearch ⟨[("b", ⟨9, 2⟩)] ++ [("kk", ⟨0 + cacheTtlMs, 3⟩)], 7⟩ 0 plainQuery).didFetch
      = true := by
  refine ⟨c2_capacity_fifo_eviction.1 _,
    c2_capacity_fifo_eviction.2.1 fifoCache "f" 6 0 (by decide) (by decide),
    c2_capacity_fifo_eviction.2.2.1 [("a", ⟨10, 1⟩)] 5 "a" ⟨10, 1⟩ (by decide)
      (by decide),
    c2_capacity_fifo_eviction.2.2.2 [("b", ⟨9, 2⟩)] (cacheKey plainQuery) "kk" 3 7 0 0
      plainQuery rfl (by decide) (by decide)⟩

/-- C3: evaluation of the two cache-lookup implementations at the exact
expiry instant `now = expiresAt` (entry stored with `expiry = 1060000`, read
at `now = 1060000`): the Map-based `getCached` keeps the entry and returns
the stored value, while the array-based revision's sweep
(`entry.expiry > now`) removes it, as the spec, the claim, and the service's
own unit test (which expects a new HTTP request exactly 60,000 ms after
insertion) require. -/
theorem c3_expiry_instant_eval :
    getCachedC [("k", ⟨1060000, 7⟩)] 1060000 "k" =
      (some ⟨1060000, 7⟩, [("k", ⟨1060000, 7⟩)]) ∧
    sweepCache [("k", ⟨1060000, 7⟩)] 1060000 = [] := by
  constructor <;> rfl

/-- C9: after the `catchError` handler of a failed fetch for key `k` runs,
the cache no longer holds `k`, and a subsequent `search` whose query
normalizes to `k` performs a new remote request with a fresh handle — a
failed fetch never blocks a retry. -/
theorem c9_failed_fetch_retries (s : SvcState) (k : String) (t : Int)
    (q : InventorySearchQuery) (hkey : cacheKey q = k) :
    mapFind (onFetchError s k).cache k = none ∧
    (svcSearch (onFetchError s k) t q).didFetch = true ∧
    (svcSearch (onFetchError s k) t q).handle = s.nextHandle := by
  have h1 : mapFind (mapDelete s.cache k) k = none := mapFind_mapDelete _ _
  refine ⟨h1, ?_, ?_⟩ <;>
    (unfold svcSearch onFetchError; rw [hkey]; simp [getCachedC, h1])

/-- C9 witness: a concrete poisoned entry is evicted and retried. -/
theorem c9_failed_fetch_retries_witness :
    mapFind (onFetchError ⟨[(cacheKey plainQuery, ⟨99, 1⟩)], 4⟩
      (cacheKey plainQuery)).cache (cacheKey plainQuery) = none ∧
    (svcSearch (onFetchError ⟨[(cacheKey plainQuery, ⟨99, 1⟩)], 4⟩
      (cacheKey plainQuery)) 100 plainQuery).didFetch = true ∧
    (svcSearch (onFetchError ⟨[(cacheKey plainQuery, ⟨99, 1⟩)], 4⟩
      (cacheKey plainQuery)) 100 plainQuery).handle = 4 :=
  c9_failed_fetch_retries ⟨[(cacheKey plainQuery, ⟨99, 1⟩)], 4⟩
    (cacheKey plainQuery) 100 plainQuery rfl

/-- `wrap32` is the identity on the non-negative `int` range. -/
theorem wrap32_eq_self (x : Int) (h0 : 0 ≤ x) (h1 : x ≤ 2147483647) :
    wrap32 x = x := by
  unfold wrap32
  rw [Int.emod_eq_of_lt (by omega) (by omega)]
  omega

/-- C5 counterexample: `page = 10737419`, `size = 200` passes validation
(`page ≥ 0`, `1 ≤ size ≤ 200`), and with a single stored item the filtered
count (1) is at most `page*size`, so the claim's slice is empty — but the C#
`int` product `10737419 * 200 = 2147483800` wraps to `-2147483496`, `Skip`
skips nothing, and the engine returns the item: a nonempty result where the
claim requires an empty one. -/
theorem c5_slice_counterexample :
    (searchInventoryAsync (some { plainReq with Page := 10737419, Size := 200 })
      (some [pnItem "A"])).Items = [pnItem "A"] ∧
    ((filteredItems { plainReq with Page := 10737419, Size := 200 }
      [pnItem "A"]).length ≤ 10737419 * 200) ∧
    (searchInventoryAsync (some { plainReq with Page := 10737419, Size := 200 })
      (some [pnItem "A"])).Items ≠ [] := by
  have h1 : (searchInventoryAsync (some { plainReq with Page := 10737419, Size := 200 }) (some [pnItem "A"])).Items = [pnItem "A"] := by
    decide
  refine ⟨h1, by decide, ?_⟩
  rw [h1]
  exact List.cons_ne_nil _ _

/-- C5 (amended): for a validated request (`page ≥ 0`, `size ≥ 1`) whose
`page * size` product stays within `int.MaxValue` (no 32-bit overflow), the
returned total is the count of the filtered items (computed before paging —
sorting preserves the count), the returned items are exactly the slice
`filtered_sorted[page*size : page*size + size]`, an out-of-range page yields
an empty item list without error; concretely 47 items with `size = 20`,
`page = 2` yield total 47 with the 7 items at indices 40..46 while `page = 10`
yields total 47 with no items.  (When the product overflows, the engine skips
by the wrapped 32-bit product instead — `c5_slice_counterexample`.) -/
theorem c5_total_and_paging_amended (r : InventorySearchRequest)
    (repoItems : Option (List InventoryItem))
    (hp : 0 ≤ r.Page) (hs : 1 ≤ r.Size)
    (hno : r.Page * r.Size ≤ 2147483647) :
    searchInventoryAsync (some r) repoItems =
      { Total := ((filteredItems r (repoItems.getD [])).length : Int),
        Items := ((sortStage r (filteredItems r (repoItems.getD []))).drop
            (r.Page.toNat * r.Size.toNat)).take r.Size.toNat } ∧
    ((filteredItems r (repoItems.getD [])).length ≤ r.Page.toNat * r.Size.toNat →
      (searchInventoryAsync (some r) repoItems).Items = []) ∧
    searchInventoryAsync (some req47) (some items47) =
      { Total := 47, Items := (items47.drop 40).take 20 } ∧
    searchInventoryAsync (some { req47 with Page := 10 }) (some items47) =
      { Total := 47, Items := [] } := by
  have hmain : searchInventoryAsync (some r) repoItems =
      { Total := ((filteredItems r (repoItems.getD [])).length : Int),
        Items := ((sortStage r (filteredItems r (repoItems.getD []))).drop
            (r.Page.toNat * r.Size.toNat)).take r.Size.toNat } := by
    obtain ⟨p, hpe⟩ := Int.eq_ofNat_of_zero_le hp
    obtain ⟨sz, hsz⟩ := Int.eq_ofNat_of_zero_le (le_trans (by norm_num) hs)
    unfold searchInventoryAsync searchInventoryRun
    dsimp only
    rw [if_neg (by omega : ¬ r.Page < 0), if_neg (by omega : ¬ r.Size ≤ 0),
      wrap32_eq_self _ (mul_nonneg hp (by omega)) hno]
    simp only [SearchResult.mk.injEq]
    constructor
    · exact congrArg Nat.cast (sortStage_length r _)
    · rw [hpe, hsz]
      norm_cast
  refine ⟨hmain, fun hout => ?_, by decide, by decide⟩
  rw [hmain]
  dsimp only
  rw [List.drop_eq_nil_of_le (by rw [sortStage_length]; exact hout)]
  exact List.take_nil

/-- C5 (amended) witness: the slice equation at a concrete validated,
non-overflowing request. -/
theorem c5_total_and_paging_amended_witness :
    searchInventoryAsync (some plainReq) (some [pnItem "A"]) =
      { Total := ((filteredItems plainReq ((some [pnItem "A"]).getD [])).length : Int),
        Items := ((sortStage plainReq
            (filteredItems plainReq ((some [pnItem "A"]).getD []))).drop
            (plainReq.Page.toNat * plainReq.Size.toNat)).take plainReq.Size.toNat } :=
  (c5_total_and_paging_amended plainReq (some [pnItem "A"]) (by decide) (by decide)
    (by decide)).1

/-- An unsupported (non-empty, not in the `switch`) sort field selects the
default branch: PartNumber in the requested direction. -/
theorem cmpOf_default (fld : String) (d : Bool)
    (h : lowerStr fld ∉ engineSortCases) :
    cmpOf fld d = if d then flipLe partLe else partLe := by
  unfold cmpOf
  split <;> first
    | rfl
    | exact absurd (by simp [engineSortCases, *]) h

/-- C7 counterexample: with an absent sort field the engine performs no sort
at all (repository order `B, A` is returned, not PartNumber-ascending), and a
non-empty unsupported sort field (`bogus:desc`) sorts by PartNumber in the
requested direction — descending here — not ascending. -/
theorem c7_default_sort_counterexample :
    sortedByPartAsc ((searchInventoryAsync (some plainReq)
      (some [pnItem "B", pnItem "A"])).Items) = false ∧
    (searchInventoryAsync (some { plainReq with SortText := some "bogus:desc" })
      (some [pnItem "A", pnItem "B"])).Items = [pnItem "B", pnItem "A"] := by
  constructor <;> decide

/-- C7 (amended): with a null/whitespace sort field the engine leaves the
filtered items in their input (repository) order; with a non-empty sort field
it performs a stable sort by the selected comparator (permutation, sorted
output, tied-class order preservation); and a non-empty unsupported field
falls to the default branch sorting by PartNumber in the requested direction. -/
theorem c7_sort_dispatch_amended (r : InventorySearchRequest)
    (l : List InventoryItem) :
    (isWhiteSpaceStr (sortFieldOf r) = true → sortStage r l = l) ∧
    (isWhiteSpaceStr (sortFieldOf r) = false →
      (sortStage r l).Perm l ∧
      List.Sorted (fun a b => cmpOf (sortFieldOf r) (isDescOf r) a b = true)
        (sortStage r l) ∧
      (∀ P : InventoryItem → Bool,
        (∀ x y, P x = true → P y = true →
          cmpOf (sortFieldOf r) (isDescOf r) x y = true) →
        (sortStage r l).filter P = l.filter P)) ∧
    (isWhiteSpaceStr (sortFieldOf r) = false →
      lowerStr (sortFieldOf r) ∉ engineSortCases →
      sortStage r l = iSortB (if isDescOf r then flipLe partLe else partLe) l) := by
  have hsplit : isWhiteSpaceStr (sortFieldOf r) = false →
      sortStage r l = iSortB (cmpOf (sortFieldOf r) (isDescOf r)) l := by
    intro h
    unfold sortStage
    rw [if_neg (by simp [h])]
    rfl
  refine ⟨?_, fun h => ?_, fun h hn => ?_⟩
  · intro h
    unfold sortStage
    rw [if_pos h]
  · rw [hsplit h]
    exact ⟨iSortB_perm _ _, iSortB_sorted _ (cmpOf_total _ _) (cmpOf_trans _ _) l,
      fun P hP => iSortB_filter _ P hP l⟩
  · rw [hsplit h, cmpOf_default _ _ hn]

/-- C7 (amended) witness: no sort applied without a field; a permutation and
PartNumber-descending default with `bogus:desc`. -/
theorem c7_sort_dispatch_amended_witness :
    sortStage plainReq [pnItem "A"] = [pnItem "A"] ∧
    (sortStage { plainReq with SortText := some "bogus:desc" }
      [pnItem "A"]).Perm [pnItem "A"] ∧
    sortStage { plainReq with SortText := some "bogus:desc" } [pnItem "A"] =
      iSortB (if isDescOf { plainReq with SortText := some "bogus:desc" }
        then flipLe partLe else partLe) [pnItem "A"] :=
  ⟨(c7_sort_dispatch_amended plainReq [pnItem "A"]).1 (by decide),
    ((c7_sort_dispatch_amended { plainReq with SortText := some "bogus:desc" }
      [pnItem "A"]).2.1 (by decide)).1,
    (c7_sort_dispatch_amended { plainReq with SortText := some "bogus:desc" }
      [pnItem "A"]).2.2 (by decide) (by decide)⟩

/-- C8: for a request that passes the controller's validations and whose
filters match zero records, the engine returns the successful result
`total = 0, items = []` (it is a total function and cannot throw), and the
controller surfaces this zero-match outcome as a NotFound failure envelope
rather than a success envelope. -/
theorem c8_empty_result_not_found (criteria byParam branches : String)
    (onlyAvailable : Bool) (page size : Int) (sort : String)
    (repoItems : Option (List InventoryItem))
    (hsf : (!(isWhiteSpaceStr (ctrlSortField sort)) &&
      (lowerStr (ctrlSortField sort) == "suppliersku" ||
        lowerStr (ctrlSortField sort) == "lots")) = false)
    (hpage : 0 ≤ page) (hsize1 : 1 ≤ size) (hsize2 : size ≤ 200)
    (hby : (allowedSearchByFields.map lowerStr).contains (lowerStr byParam) = true)
    (hsort : allowedSortFields.contains (lowerStr (ctrlSortField sort)) = true)
    (hdir : (lowerStr (ctrlSortDirection sort) == "asc" ||
      lowerStr (ctrlSortDirection sort) == "desc") = true)
    (hzero : filteredItems (controllerRequest criteria byParam branches
      onlyAvailable page size sort) (repoItems.getD []) = []) :
    searchInventoryAsync (some (controllerRequest criteria byParam branches
      onlyAvailable page size sort)) repoItems = ⟨0, []⟩ ∧
    controllerSearch criteria byParam branches onlyAvailable page size sort false
      repoItems =
      .notFound (envFailure "No inventory found for the provided criteria.") := by
  have hengine : searchInventoryAsync (some (controllerRequest criteria byParam
      branches onlyAvailable page size sort)) repoItems = ⟨0, []⟩ := by
    unfold searchInventoryAsync searchInventoryRun
    dsimp only
    rw [hzero, sortStage_nil]
    simp
  have hp' : ¬ page < 0 := by omega
  have hs' : ¬ (size ≤ 0 ∨ size > 200) := by omega
  refine ⟨hengine, ?_⟩
  unfold controllerSearch
  simp only [hsf, hby, hsort, hdir, hengine]
  simp [hp', hs']

/-- C8 witness: a concrete validated request matching nothing. -/
theorem c8_empty_result_not_found_witness :
    searchInventoryAsync (some (controllerRequest "zzz" "PartNumber" "" false 0 20 ""))
      (some [pnItem "abc"]) = ⟨0, []⟩ ∧
    controllerSearch "zzz" "PartNumber" "" false 0 20 "" false (some [pnItem "abc"]) =
      .notFound (envFailure "No inventory found for the provided criteria.") :=
  c8_empty_result_not_found "zzz" "PartNumber" "" false 0 20 "" (some [pnItem "abc"])
    (by decide) (by decide) (by decide) (by decide) (by decide) (by decide)
    (by decide) (by decide)

/-- The filter pipeline reads only the criteria/by/branches/availability
fields of the request. -/
theorem filteredItems_congr (r r' : InventorySearchRequest)
    (h1 : r.Criteria = r'.Criteria) (h2 : r.By = r'.By)
    (h3 : r.Branches = r'.Branches) (h4 : r.OnlyAvailable = r'.OnlyAvailable)
    (l : List InventoryItem) : filteredItems r l = filteredItems r' l := by
  unfold filteredItems filterByCriteria filterByBranches filterByAvailability
  rw [h1, h2, h3, h4]

/-- The parsed sort field reads only the `Sort` text. -/
theorem sortFieldOf_congr (r r' : InventorySearchRequest)
    (h : r.SortText = r'.SortText) : sortFieldOf r = sortFieldOf r' := by
  unfold sortFieldOf
  rw [h]

/-- The parsed sort direction reads only the `Sort` text. -/
theorem isDescOf_congr (r r' : InventorySearchRequest)
    (h : r.SortText = r'.SortText) : isDescOf r = isDescOf r' := by
  unfold isDescOf sortDirectionOf
  rw [h]

/-- The sort stage reads only the `Sort` text of the request. -/
theorem sortStage_congr (r r' : InventorySearchRequest)
    (h : r.SortText = r'.SortText) (l : List InventoryItem) :
    sortStage r l = sortStage r' l := by
  unfold sortStage
  rw [sortFieldOf_congr r r' h, isDescOf_congr r r' h]

/-- C10: the server operation is total beyond its stated precondition — a
null request returns total 0 and no items without consulting the repository;
a negative page behaves exactly as page 0 and a non-positive size exactly as
size 20; and for every request the result is well-formed (non-negative total,
at most `safeSize` items), so no failure path exists even for page/size
values the validation boundary would reject. -/
theorem c10_null_and_clamping :
    (∀ repoItems, searchInventoryRun none repoItems = (⟨0, []⟩, false)) ∧
    (∀ (r : InventorySearchRequest) repoItems, r.Page < 0 →
      searchInventoryAsync (some r) repoItems =
        searchInventoryAsync (some { r with Page := 0 }) repoItems) ∧
    (∀ (r : InventorySearchRequest) repoItems, r.Size ≤ 0 →
      searchInventoryAsync (some r) repoItems =
        searchInventoryAsync (some { r with Size := 20 }) repoItems) ∧
    (∀ (r : InventorySearchRequest) repoItems,
      0 ≤ (searchInventoryAsync (some r) repoItems).Total ∧
      (searchInventoryAsync (some r) repoItems).Items.length ≤
        (if r.Size ≤ 0 then 20 else r.Size).toNat) := by
  refine ⟨fun _ => rfl, ?_, ?_, ?_⟩
  · intro r repo h
    unfold searchInventoryAsync searchInventoryRun
    dsimp only
    rw [filteredItems_congr { r with Page := 0 } r rfl rfl rfl rfl (repo.getD []),
      sortStage_congr { r with Page := 0 } r rfl]
    simp [h]
  · intro r repo h
    unfold searchInventoryAsync searchInventoryRun
    dsimp only
    rw [filteredItems_congr { r with Size := 20 } r rfl rfl rfl rfl (repo.getD []),
      sortStage_congr { r with Size := 20 } r rfl]
    simp [h]
  · intro r repo
    unfold searchInventoryAsync searchInventoryRun
    dsimp only
    constructor
    · exact Int.natCast_nonneg _
    · exact List.length_take_le _ _

/-- C10 witness: null request, negative page clamp, zero size clamp, and a
well-formed total, at concrete inputs. -/
theorem c10_null_and_clamping_witness :
    searchInventoryRun none (some [pnItem "A"]) = (⟨0, []⟩, false) ∧
    searchInventoryAsync (some { plainReq with Page := -3 }) (some [pnItem "A"]) =
      searchInventoryAsync (some { { plainReq with Page := -3 } with Page := 0 })
        (some [pnItem "A"]) ∧
    searchInventoryAsync (some { plainReq with Size := 0 }) (some [pnItem "A"]) =
      searchInventoryAsync (some { { plainReq with Size := 0 } with Size := 20 })
        (some [pnItem "A"]) ∧
    0 ≤ (searchInventoryAsync (some plainReq) (some [pnItem "A"])).Total :=
  ⟨c10_null_and_clamping.1 _,
    c10_null_and_clamping.2.1 _ _ (by decide),
    c10_null_and_clamping.2.2.1 _ _ (by decide),
    (c10_null_and_clamping.2.2.2 plainReq (some [pnItem "A"])).1⟩
